import Mathlib

/-!
# Verification of the STUN packet codec and transaction engine

Shallow embedding of `stun/packet.go` (type `packet`, functions
`newPacket`, `newPacketFromBytes`, `addAttribute`, `bytes`, `send`).

Bytes are modelled as `List Nat` (each entry a byte value); the Go
`uint16` fields and cursor arithmetic are modelled as `Nat` with explicit
`% 65536` wherever the Go code computes in `uint16`.  A Go slice
expression `b[lo:hi]` panics when `lo > hi` or `hi > len(b)`; the parse
model makes those panics explicit as a `ParseResult.panic` outcome.

The files `attribute.go` and `const.go` of the repository are not part of
the given sources; the pieces of them that `packet.go` uses (`attribute`,
`newAttribute`, `align`, `magicCookie`) are modelled from the spec and
carry a `Modelled from the spec:` note in their doc comment.
-/

/-- Modelled from the spec: `align` from the missing `attribute.go`.
The spec gives the padding rule `alignedLength(n) = ((n + 3) / 4) * 4`;
in the Go code `align` takes and returns `uint16`, so the addition `n + 3`
wraps modulo 2^16 before the division. -/
def align16 (n : Nat) : Nat := (n + 3) % 65536 / 4 * 4

/-- The spec's padding rule `alignedLength(n) = ((n + 3) / 4) * 4`, written
over unbounded naturals exactly as the spec states it (no 16-bit wrap).
Used only to compare the spec's wording with the code's `uint16` variant. -/
def alignedLength (n : Nat) : Nat := (n + 3) / 4 * 4

/-- Modelled from the spec: the magic cookie, a "fixed 4-byte constant
identifying protocol version" from the missing `const.go` (RFC value). -/
def magicCookie : Nat := 0x2112A442

/-- Big-endian bytes of a `uint16` value, as `binary.BigEndian.PutUint16`
writes them. -/
def putU16 (n : Nat) : List Nat := [n % 65536 / 256, n % 256]

/-- Big-endian bytes of a `uint32` value, as `binary.BigEndian.PutUint32`
writes them. -/
def putU32 (n : Nat) : List Nat :=
  [n % 4294967296 / 16777216 % 256, n / 65536 % 256, n / 256 % 256, n % 256]

/-- `binary.BigEndian.Uint16(b[i:i+2])`: the two bytes at offsets `i`,
`i+1` read as a big-endian 16-bit value.  Callers establish `i + 2 ≤
b.length` (the Go slice bounds) before the read, so the `getD` default is
never taken on the paths the code reaches. -/
def getU16 (b : List Nat) (i : Nat) : Nat := b.getD i 0 * 256 + b.getD (i + 1) 0

/-- Modelled from the spec: the `attribute` struct of the missing
`attribute.go` — "{type: 16-bit code, length: 16-bit byte count of value,
value: byte sequence of exactly `length` bytes}". -/
structure Attrib where
  types : Nat
  length : Nat
  value : List Nat
deriving DecidableEq

/-- Modelled from the spec: `newAttribute` of the missen `attribute.go`:
`decodeAttribute(type, rawValueBytes) -> Attribute` is "pure, never fails",
the value is the given byte sequence (the spec's data model: "value: byte
sequence of exactly `length` bytes", padding "not part of the logical
value"), and the length field is the 16-bit byte count of the value. -/
def newAttribute (types : Nat) (value : List Nat) : Attrib :=
  { types := types % 65536, length := value.length % 65536, value := value }

/-- The `packet` struct of `packet.go`. -/
structure packet where
  types : Nat
  length : Nat
  transId : List Nat
  attributes : List Attrib
deriving DecidableEq

/-- `newPacket` of `packet.go`, with the 12 random bytes drawn by
`crypto/rand` passed in as `rnd` (the model has no effectful randomness;
the error path of `rand.Read` is never taken in the model). -/
def newPacket (rnd : List Nat) : packet :=
  { types := 0, length := 0, transId := putU32 magicCookie ++ rnd, attributes := [] }

/-- `(*packet).addAttribute` of `packet.go`: append the attribute and add
`align(a.length) + 4` to the `uint16` length field (wrapping mod 2^16). -/
def packet.addAttribute (v : packet) (a : Attrib) : packet :=
  { v with
    attributes := v.attributes ++ [a],
    length := (v.length + (align16 a.length + 4)) % 65536 }

/-- `(*packet).bytes` of `packet.go`: 2 bytes type, 2 bytes length, the
transaction id, then for each attribute 2 bytes type, 2 bytes length and
the raw value — the function appends no padding bytes. -/
def packet.bytes (v : packet) : List Nat :=
  putU16 v.types ++ putU16 v.length ++ v.transId ++
    (v.attributes.map (fun a => putU16 a.types ++ putU16 a.length ++ a.value)).flatten

/-- Outcome of `newPacketFromBytes`: a packet, one of the two error
returns, a Go runtime panic (slice bounds out of range), or an infinite
loop of the attribute walk (possible because the `uint16` cursor can
wrap). -/
inductive ParseResult where
  | ok (p : packet)
  | errTooShort
  | errFormat
  | panic
  | diverge
deriving DecidableEq

/-- One iteration of the attribute walk of `newPacketFromBytes`, minus the
accumulator: exit the loop, fail (error return or panic), or produce the
next cursor value and the decoded attribute.  All cursor arithmetic is the
Go `uint16` arithmetic (mod 2^16); every Go slice `b[lo:hi]` is guarded by
its bounds check `lo ≤ hi ∧ hi ≤ b.length`, failing as a panic. -/
inductive Shape where
  | done
  | fail (r : ParseResult)
  | next (pos : Nat) (a : Attrib)
deriving DecidableEq

/-- The body of the `for pos := uint16(20); pos < uint16(len(packetBytes))`
loop of `newPacketFromBytes`, one iteration at cursor `pos`. -/
def parseShape (b : List Nat) (pos : Nat) : Shape :=
  -- loop condition: pos < uint16(len(packetBytes))
  if pos < b.length % 65536 then
    -- slice bounds of types := binary.BigEndian.Uint16(packetBytes[pos : pos+2])
    if (pos + 2) % 65536 < pos ∨ b.length < (pos + 2) % 65536 then Shape.fail ParseResult.panic
    -- slice bounds of length := binary.BigEndian.Uint16(packetBytes[pos+2 : pos+4])
    else if (pos + 4) % 65536 < (pos + 2) % 65536 ∨ b.length < (pos + 4) % 65536 then
      Shape.fail ParseResult.panic
    -- if pos+4+length > uint16(len(packetBytes)) { return error }
    else if b.length % 65536 < (pos + 4 + getU16 b ((pos + 2) % 65536)) % 65536 then
      Shape.fail ParseResult.errFormat
    -- slice bounds of value := packetBytes[pos+4 : pos+4+length]
    else if (pos + 4 + getU16 b ((pos + 2) % 65536)) % 65536 < (pos + 4) % 65536
        ∨ b.length < (pos + 4 + getU16 b ((pos + 2) % 65536)) % 65536 then
      Shape.fail ParseResult.panic
    else
      -- attribute := newAttribute(types, value); pos += align(length) + 4
      Shape.next ((pos + (align16 (getU16 b ((pos + 2) % 65536)) + 4)) % 65536)
        (newAttribute (getU16 b pos)
          ((b.drop ((pos + 4) % 65536)).take
            ((pos + 4 + getU16 b ((pos + 2) % 65536)) % 65536 - (pos + 4) % 65536)))
  else Shape.done

/-- The attribute walk of `newPacketFromBytes`.  The fuel only bounds the
iteration count: the cursor is a deterministic function of its previous
value, so a walk that runs for 65537 iterations has repeated a cursor
value and loops forever; running out of fuel therefore coincides exactly
with divergence of the Go loop. -/
def parseAttrs (b : List Nat) : Nat → Nat → packet → ParseResult
  | 0, _, _ => ParseResult.diverge
  | fuel + 1, pos, acc =>
    match parseShape b pos with
    | Shape.done => ParseResult.ok acc
    | Shape.fail r => r
    | Shape.next pos' a => parseAttrs b fuel pos' (acc.addAttribute a)

/-- `newPacketFromBytes` of `packet.go`: reject inputs shorter than 24
bytes, read type and length, alias the transaction id to bytes 4..20, then
walk the attributes from offset 20.  (The random transaction id drawn by
the inner `newPacket` call is immediately overwritten, so the model elides
it.) -/
def newPacketFromBytes (b : List Nat) : ParseResult :=
  if b.length < 24 then ParseResult.errTooShort
  else
    parseAttrs b 65537 20
      { types := getU16 b 0, length := getU16 b 2,
        transId := (b.drop 4).take 16, attributes := [] }

/-! ## The transaction engine `(*packet).send`

`send` interacts with a `net.PacketConn`; the model replaces the
connection by an oracle: a list of replies, one consumed per connection
call (`WriteTo`, `SetReadDeadline`, `ReadFrom`), in program order.  The
model also records the trace of connection actions `send` performs.  An
oracle entry whose kind does not match the call being made (or a
exhausted oracle) yields the artificial `stuck` outcome, which no theorem
is about. -/

/-- One environment reply to a connection call of `send`: the result of a
`WriteTo`, of a `SetReadDeadline`, or of a `ReadFrom` (a deadline-exceeded
timeout, a non-timeout `net.Error`, or a received datagram with its sender
address, the sender modelled as a bare number). -/
inductive ConnReply where
  | writeOk (n : Nat)
  | writeErr
  | deadlineOk
  | deadlineErr
  | readTimeout
  | readErr
  | readData (data : List Nat) (sender : Nat)
deriving DecidableEq

/-- A connection call performed by `send`: writing the serialized packet,
arming a read deadline of `ms` milliseconds, or reading one datagram. -/
inductive ConnAct where
  | write (data : List Nat)
  | arm (ms : Nat)
  | read
deriving DecidableEq

/-- Result of the inner `for { conn.ReadFrom ... }` receive loop. -/
inductive RecvOut where
  | timedOut
  | fatal
  | matched (sender : Nat) (pkt : packet)
  | panicked
  | stuck
deriving DecidableEq

/-- The value triple `send` returns: `reply` is `(raddr, pkt, nil)`,
`fatal` any `(nil, nil, err)` with `err ≠ nil`, `noReply` the terminal
`(nil, nil, nil)`; `panicked` marks the nil-pointer dereference of
`pkt.transId` when `newPacketFromBytes` failed (or a panic inside it). -/
inductive SendResult where
  | reply (sender : Nat) (pkt : packet)
  | fatal
  | noReply
  | panicked
  | stuck
deriving DecidableEq

/-- The inner receive loop of `send`: read datagrams until a timeout
(break), a non-timeout read error (fatal return), or a datagram that
parses to a packet whose transaction id equals `tid` (return it).  A
datagram that parses to a different transaction id is skipped
(`continue`); a datagram that fails to parse leaves `pkt == nil` and the
subsequent `pkt.transId` dereference panics.  `ReadFrom` reads into a
1024-byte buffer, so only the first 1024 bytes of a datagram are parsed.
Returns the outcome, the actions performed, and the unconsumed oracle. -/
def recvLoop (tid : List Nat) : List ConnReply → RecvOut × (List ConnAct × List ConnReply)
  | [] => (RecvOut.stuck, ([], []))
  | ConnReply.readTimeout :: o => (RecvOut.timedOut, ([ConnAct.read], o))
  | ConnReply.readErr :: o => (RecvOut.fatal, ([ConnAct.read], o))
  | ConnReply.readData d sndr :: o =>
    match newPacketFromBytes (d.take 1024) with
    | ParseResult.ok pkt =>
      if tid = pkt.transId then (RecvOut.matched sndr pkt, ([ConnAct.read], o))
      else
        let r := recvLoop tid o
        (r.1, (ConnAct.read :: r.2.1, r.2.2))
    | _ => (RecvOut.panicked, ([ConnAct.read], o))
  | r :: o => (RecvOut.stuck, ([], r :: o))

/-- `timeout *= 2` guarded by `if timeout < 1600`, the doubling done after
arming each deadline. -/
def nextTimeout (t : Nat) : Nat := if t < 1600 then t * 2 else t

/-- The `for i := 0; i < 9; i++` loop of `send`, with `attempts` the
remaining iterations and `t` the current `timeout` variable.  Each
attempt: write `v.bytes()` (fatal on error or on a written count different
from `len(v.bytes())`), arm the read deadline (fatal on error), double the
timeout, then run the receive loop; a timeout there moves to the next
attempt, exhaustion returns `(nil, nil, nil)`. -/
def sendLoop (p : packet) : Nat → Nat → List ConnReply → SendResult × List ConnAct
  | 0, _, _ => (SendResult.noReply, [])
  | attempts + 1, t, o =>
    match o with
    | ConnReply.writeOk n :: o₁ =>
      if n = p.bytes.length then
        match o₁ with
        | ConnReply.deadlineOk :: o₂ =>
          let r := recvLoop p.transId o₂
          match r.1 with
          | RecvOut.timedOut =>
            let rest := sendLoop p attempts (nextTimeout t) r.2.2
            (rest.1, ConnAct.write p.bytes :: ConnAct.arm t :: (r.2.1 ++ rest.2))
          | RecvOut.fatal =>
            (SendResult.fatal, ConnAct.write p.bytes :: ConnAct.arm t :: r.2.1)
          | RecvOut.matched sndr pkt =>
            (SendResult.reply sndr pkt, ConnAct.write p.bytes :: ConnAct.arm t :: r.2.1)
          | RecvOut.panicked =>
            (SendResult.panicked, ConnAct.write p.bytes :: ConnAct.arm t :: r.2.1)
          | RecvOut.stuck =>
            (SendResult.stuck, ConnAct.write p.bytes :: ConnAct.arm t :: r.2.1)
        | ConnReply.deadlineErr :: _ => (SendResult.fatal, [ConnAct.write p.bytes])
        | _ => (SendResult.stuck, [ConnAct.write p.bytes])
      else (SendResult.fatal, [ConnAct.write p.bytes])
    | ConnReply.writeErr :: _ => (SendResult.fatal, [ConnAct.write p.bytes])
    | _ => (SendResult.stuck, [])

/-- `(*packet).send` of `packet.go`: 9 attempts, initial timeout 100 ms. -/
def send (p : packet) (o : List ConnReply) : SendResult × List ConnAct :=
  sendLoop p 9 100 o

/-- The deadline durations armed along a trace, in order. -/
def armsOf (tr : List ConnAct) : List Nat :=
  tr.filterMap fun a => match a with | ConnAct.arm t => some t | _ => none

/-- The number of `WriteTo` calls along a trace. -/
def writesOf (tr : List ConnAct) : Nat :=
  (tr.filterMap fun a => match a with | ConnAct.write d => some d | _ => none).length

/-- The number of `ReadFrom` calls along a trace. -/
def readsOf (tr : List ConnAct) : Nat :=
  (tr.filter fun a => match a with | ConnAct.read => true | _ => false).length

/-- The arm schedule of the retry loop: `n` deadlines starting at `t`,
doubling capped at 1600. -/
def armSched : Nat → Nat → List Nat
  | 0, _ => []
  | n + 1, t => t :: armSched n (nextTimeout t)

/-! ## Concrete inputs used by the claim theorems -/

/-- A 16-byte all-zero transaction id. -/
def zeros16 : List Nat := List.replicate 16 0

/-- An attribute-less request packet with type 1 and an all-zero
transaction id; its serialization is the 20-byte header. -/
def p0 : packet := { types := 1, length := 0, transId := zeros16, attributes := [] }

/-- `p0` after `addAttribute(newAttribute(2, []))`: one empty-valued
attribute, length field 4, serialization 24 bytes. -/
def p1 : packet := p0.addAttribute (newAttribute 2 [])

/-- `p0` after `addAttribute(newAttribute(7, [1,2,3,4,5]))`: one
attribute with a 5-byte value (not a multiple of 4). -/
def p3 : packet := p0.addAttribute (newAttribute 7 [1, 2, 3, 4, 5])

/-- A 28-byte buffer whose single attribute declares length 0xFFFD =
65533: 22 zero bytes (header, transaction id, attribute type), the two
length bytes 0xFF 0xFD, and 4 more zero bytes. -/
def b2 : List Nat := List.replicate 22 0 ++ [255, 253] ++ List.replicate 4 0

/-- A 28-byte buffer whose header declares attribute-section length 4 and
whose first 4 attribute bytes are a well-formed empty attribute of type 1,
followed by 4 trailing bytes that declare value length 200. -/
def b3 : List Nat := [0, 0, 0, 4] ++ zeros16 ++ [0, 1, 0, 0] ++ [0, 0, 0, 200]

/-! ## Claim theorems: the packet codec bugs (C1 - C4) -/

/-- Claim C1 (code bug): deserializing `serialize(p1)` preserves the type,
transaction id and attribute sequence, but the decoded length field is 8,
twice the original 4 — `newPacketFromBytes` reads the header length field
and then accumulates `align(length)+4` again for every attribute it
re-adds via `addAttribute`, so the claimed round-trip equality of the
length field fails. -/
theorem roundtrip_length_field_bug :
    newPacketFromBytes p1.bytes
      = ParseResult.ok
          { types := 1, length := 8, transId := zeros16,
            attributes := [{ types := 2, length := 0, value := [] }] }
    ∧ p1.length = 4 := by decide

/-- Claim C2 (code bug): on the 28-byte buffer `b2`, whose attribute
declares value length 65533, the `uint16` bounds check computes
`(20 + 4 + 65533) mod 2^16 = 21 ≤ 28` and passes, and the value slice
`packetBytes[24:21]` then panics with a slice-bounds violation — the
function does not return an error for this attribute-overrun input. -/
theorem parse_u16_overflow_panic :
    b2.length = 28 ∧ newPacketFromBytes b2 = ParseResult.panic := by decide

/-- Claim C3 (code bug): serializing the packet `p3`, whose single
attribute value has length 5, emits the 5 value bytes with no padding:
the output is exactly 20 header bytes plus the 4-byte TLV header plus the
raw value, 29 bytes in all, and not the claimed
`24 + (4 + alignedLength(5)) = 36` — even though the decoder advances by
`align(length) + 4` and therefore expects padded values on the wire. -/
theorem serialize_no_padding_bug :
    p3.bytes = [0, 1, 0, 12] ++ zeros16 ++ [0, 7, 0, 5, 1, 2, 3, 4, 5]
    ∧ p3.bytes.length = 29
    ∧ ¬ p3.bytes.length = 24 + (4 + align16 5) := by decide

/-- Claim C4 (code bug): when the first inbound datagram is the single
byte `0x00` (shorter than 24 bytes, so `newPacketFromBytes` fails), `send`
dereferences `pkt.transId` on the nil packet and panics instead of
discarding the datagram and waiting on. -/
theorem send_malformed_datagram_panic :
    (send p0 [ConnReply.writeOk 20, ConnReply.deadlineOk, ConnReply.readData [0] 7]).1
      = SendResult.panicked := by decide

/-! ## Claim C8: the length-field invariant of `addAttribute` -/

/-- The length field is a `uint16` and stays below 2^16. -/
lemma addAttribute_length_lt (v : packet) (a : Attrib) :
    (v.addAttribute a).length < 65536 :=
  Nat.mod_lt _ (by norm_num)

/-- Folding `addAttribute` accumulates the 16-bit length field: it equals
the starting field plus the sum of `4 + align(a.length)` over the added
attributes, reduced mod 2^16. -/
lemma foldl_addAttribute_length :
    ∀ (as : List Attrib) (v : packet), v.length < 65536 →
      (as.foldl packet.addAttribute v).length
        = (v.length + (as.map fun a => 4 + align16 a.length).sum) % 65536
  | [], v, h => by simpa using (Nat.mod_eq_of_lt h).symm
  | a :: as, v, h => by
    simp only [List.foldl_cons, List.map_cons, List.sum_cons]
    rw [foldl_addAttribute_length as _ (addAttribute_length_lt v a)]
    show ((v.length + (align16 a.length + 4)) % 65536 + _) % 65536 = _
    rw [Nat.mod_add_mod]
    omega

/-- Folding `addAttribute` appends the attributes in order. -/
lemma foldl_addAttribute_attributes :
    ∀ (as : List Attrib) (v : packet),
      (as.foldl packet.addAttribute v).attributes = v.attributes ++ as
  | [], v => by simp
  | a :: as, v => by
    simp only [List.foldl_cons, foldl_addAttribute_attributes as]
    simp [packet.addAttribute]

/-- Claim C8 (amended): after any sequence of `addAttribute` calls on a
fresh packet, the `uint16` length field equals the sum over the attributes
of `4 + align(a.length)` reduced modulo 2^16 (the field wraps, so the
unreduced sum of the original claim is not always attained), each call
appends its attribute at the end of the sequence, and each call increments
the length field by exactly `align(a.length) + 4`, modulo 2^16. -/
theorem addAttribute_length_mod_invariant (rnd : List Nat) (as : List Attrib) :
    (as.foldl packet.addAttribute (newPacket rnd)).length
        = (as.map fun a => 4 + align16 a.length).sum % 65536
    ∧ (as.foldl packet.addAttribute (newPacket rnd)).attributes = as
    ∧ ∀ (v : packet) (a : Attrib),
        (v.addAttribute a).attributes = v.attributes ++ [a]
        ∧ (v.addAttribute a).length = (v.length + (align16 a.length + 4)) % 65536 := by
  refine ⟨?_, ?_, fun v a => ⟨rfl, rfl⟩⟩
  · rw [foldl_addAttribute_length as _ (by norm_num [newPacket])]
    simp [newPacket]
  · rw [foldl_addAttribute_attributes]
    simp [newPacket]

/-- Claim C8 counterexample: after 16384 `addAttribute` calls with
empty-valued attributes the length field has wrapped to 0, while the sum
of `4 + alignedLength(value length)` demanded by the claim is 65536 — the
claimed un-reduced equality fails on this packet. -/
theorem addAttribute_length_sum_overflow_cex :
    ¬ ((List.replicate 16384 ({ types := 0, length := 0, value := [] } : Attrib)).foldl
          packet.addAttribute (newPacket (List.replicate 12 0))).length
        = ((List.replicate 16384 ({ types := 0, length := 0, value := [] } : Attrib)).map
            fun a => 4 + alignedLength a.length).sum := by
  rw [foldl_addAttribute_length _ _ (by norm_num [newPacket]),
    List.map_replicate, List.sum_replicate, smul_eq_mul,
    List.map_replicate, List.sum_replicate, smul_eq_mul]
  norm_num [newPacket, align16, alignedLength]

/-! ## Trace bookkeeping lemmas -/

@[simp] lemma armsOf_nil : armsOf [] = [] := rfl

@[simp] lemma armsOf_read (tr : List ConnAct) : armsOf (ConnAct.read :: tr) = armsOf tr := rfl

@[simp] lemma armsOf_write (d : List Nat) (tr : List ConnAct) :
    armsOf (ConnAct.write d :: tr) = armsOf tr := rfl

@[simp] lemma armsOf_arm (t : Nat) (tr : List ConnAct) :
    armsOf (ConnAct.arm t :: tr) = t :: armsOf tr := rfl

@[simp] lemma armsOf_append (t₁ t₂ : List ConnAct) :
    armsOf (t₁ ++ t₂) = armsOf t₁ ++ armsOf t₂ := by
  simp [armsOf]

@[simp] lemma writesOf_nil : writesOf [] = 0 := rfl

@[simp] lemma writesOf_read (tr : List ConnAct) : writesOf (ConnAct.read :: tr) = writesOf tr := rfl

@[simp] lemma writesOf_write (d : List Nat) (tr : List ConnAct) :
    writesOf (ConnAct.write d :: tr) = writesOf tr + 1 := by
  simp [writesOf]

@[simp] lemma writesOf_arm (t : Nat) (tr : List ConnAct) :
    writesOf (ConnAct.arm t :: tr) = writesOf tr := rfl

@[simp] lemma writesOf_append (t₁ t₂ : List ConnAct) :
    writesOf (t₁ ++ t₂) = writesOf t₁ + writesOf t₂ := by
  simp [writesOf]

@[simp] lemma armsOf_replicate_read (k : Nat) :
    armsOf (List.replicate k ConnAct.read) = [] := by
  induction k with
  | zero => rfl
  | succ k ih => simpa [List.replicate_succ] using ih

@[simp] lemma writesOf_replicate_read (k : Nat) :
    writesOf (List.replicate k ConnAct.read) = 0 := by
  induction k with
  | zero => rfl
  | succ k ih => simpa [List.replicate_succ] using ih

/-! ## Receive-loop lemmas -/

/-- The receive loop performs only `ReadFrom` calls: its trace holds no
write and no deadline action. -/
lemma recvLoop_trace_reads (tid : List Nat) :
    ∀ o : List ConnReply,
      armsOf (recvLoop tid o).2.1 = [] ∧ writesOf (recvLoop tid o).2.1 = 0 := by
  intro o
  induction o with
  | nil => simp [recvLoop]
  | cons r o ih =>
    cases r with
    | writeOk n => simp [recvLoop]
    | writeErr => simp [recvLoop]
    | deadlineOk => simp [recvLoop]
    | deadlineErr => simp [recvLoop]
    | readTimeout => simp [recvLoop]
    | readErr => simp [recvLoop]
    | readData d sndr =>
      rcases hp : newPacketFromBytes (d.take 1024) with pkt | _ | _ | _ | _ <;>
        simp only [recvLoop, hp]
      · by_cases hm : tid = pkt.transId
        · simp [hm]
        · simpa [hm] using ih
      all_goals simp

/-- A `ConnReply` that carries a datagram parsing to a packet whose
transaction id differs from `tid`. -/
def nonMatchingB (tid : List Nat) (r : ConnReply) : Bool :=
  match r with
  | ConnReply.readData d _ =>
    match newPacketFromBytes (d.take 1024) with
    | ParseResult.ok pkt => if tid = pkt.transId then false else true
    | _ => false
  | _ => false

/-- Skipping one non-matching datagram: the receive loop records the read
and goes on with the rest of the oracle. -/
lemma recvLoop_cons_nonMatching (tid : List Nat) (r : ConnReply) (o : List ConnReply)
    (h : nonMatchingB tid r = true) :
    recvLoop tid (r :: o)
      = ((recvLoop tid o).1,
         (ConnAct.read :: (recvLoop tid o).2.1, (recvLoop tid o).2.2)) := by
  cases r with
  | writeOk n => simp [nonMatchingB] at h
  | writeErr => simp [nonMatchingB] at h
  | deadlineOk => simp [nonMatchingB] at h
  | deadlineErr => simp [nonMatchingB] at h
  | readTimeout => simp [nonMatchingB] at h
  | readErr => simp [nonMatchingB] at h
  | readData d sndr =>
    rcases hp : newPacketFromBytes (d.take 1024) with pkt | _ | _ | _ | _ <;>
      rw [nonMatchingB] at h <;> rw [hp] at h <;> simp at h
    simp only [recvLoop, hp, if_neg h]

/-- An oracle segment that makes one receive phase end in a timeout: zero
or more non-matching datagrams followed by a deadline-exceeded read. -/
def recvScript (tid : List Nat) : List ConnReply → Bool
  | [] => false
  | [r] => decide (r = ConnReply.readTimeout)
  | r :: rest => nonMatchingB tid r && recvScript tid rest

/-- Running the receive loop on a timeout segment: the loop reads every
entry of the segment, ends in `timedOut`, and leaves the tail oracle
untouched. -/
lemma recvLoop_script (tid : List Nat) :
    ∀ (s tail : List ConnReply), recvScript tid s = true →
      recvLoop tid (s ++ tail)
        = (RecvOut.timedOut, (List.replicate s.length ConnAct.read, tail)) := by
  intro s
  induction s with
  | nil => intro tail h; simp [recvScript] at h
  | cons r s ih =>
    intro tail h
    cases s with
    | nil =>
      rw [show recvScript tid [r] = decide (r = ConnReply.readTimeout) from rfl] at h
      rw [decide_eq_true_eq] at h
      subst h
      rfl
    | cons r' s' =>
      rw [show recvScript tid (r :: r' :: s')
            = (nonMatchingB tid r && recvScript tid (r' :: s')) from rfl,
        Bool.and_eq_true] at h
      rw [List.cons_append, recvLoop_cons_nonMatching tid r _ h.1, ih tail h.2]
      simp [List.replicate_succ]

/-- Running the receive loop on non-matching datagrams followed by a
matching one: every datagram is read, the loop stops at the matching one
with its sender and packet, and the tail oracle is untouched. -/
lemma recvLoop_match_after (tid : List Nat) :
    ∀ (ds : List ConnReply) (d : List Nat) (sndr : Nat) (pkt : packet)
      (tail : List ConnReply),
      (∀ r ∈ ds, nonMatchingB tid r = true) →
      newPacketFromBytes (d.take 1024) = ParseResult.ok pkt →
      tid = pkt.transId →
      recvLoop tid (ds ++ ConnReply.readData d sndr :: tail)
        = (RecvOut.matched sndr pkt,
           (List.replicate (ds.length + 1) ConnAct.read, tail)) := by
  intro ds
  induction ds with
  | nil =>
    intro d sndr pkt tail _ hp hm
    simp only [List.nil_append, recvLoop, hp, if_pos hm, List.length_nil]
    rfl
  | cons r ds ih =>
    intro d sndr pkt tail hds hp hm
    rw [List.cons_append, recvLoop_cons_nonMatching tid r _ (hds r (by simp)),
      ih d sndr pkt tail (fun x hx => hds x (by simp [hx])) hp hm]
    simp [List.replicate_succ]

/-! ## Send-loop lemmas -/

/-- An oracle segment making one whole attempt end in a timeout: a full
write, a successful deadline arm, then a timeout segment of reads. -/
def timeoutAttemptB (p : packet) (a : List ConnReply) : Bool :=
  match a with
  | ConnReply.writeOk n :: ConnReply.deadlineOk :: rest =>
    decide (n = p.bytes.length) && recvScript p.transId rest
  | _ => false

lemma timeoutAttemptB_elim {p : packet} {a : List ConnReply}
    (h : timeoutAttemptB p a = true) :
    ∃ rest, a = ConnReply.writeOk p.bytes.length :: ConnReply.deadlineOk :: rest
      ∧ recvScript p.transId rest = true := by
  match a, h with
  | ConnReply.writeOk n :: ConnReply.deadlineOk :: rest, h => {
      rw [show timeoutAttemptB p (ConnReply.writeOk n :: ConnReply.deadlineOk :: rest)
            = (decide (n = p.bytes.length) && recvScript p.transId rest) from rfl,
        Bool.and_eq_true, decide_eq_true_eq] at h
      exact ⟨rest, by rw [h.1], h.2⟩ }

/-- One timeout attempt peels off the front of the oracle: the result is
that of the remaining attempts with a doubled timeout, and the trace is
the attempt's write, arm and reads followed by the rest. -/
lemma sendLoop_timeout_step (p : packet) (n t : Nat) (rest tail : List ConnReply)
    (h : recvScript p.transId rest = true) :
    sendLoop p (n + 1) t
        (ConnReply.writeOk p.bytes.length :: ConnReply.deadlineOk :: (rest ++ tail))
      = ((sendLoop p n (nextTimeout t) tail).1,
         ConnAct.write p.bytes :: ConnAct.arm t ::
           (List.replicate rest.length ConnAct.read
             ++ (sendLoop p n (nextTimeout t) tail).2)) := by
  have hr := recvLoop_script p.transId rest tail h
  simp [sendLoop, hr]

/-- The evolution of the `timeout` variable across `k` attempts. -/
def timeoutAfter : Nat → Nat → Nat
  | t, 0 => t
  | t, k + 1 => timeoutAfter (nextTimeout t) k

/-- Peeling a list of timeout attempts off the front of the oracle. -/
lemma sendLoop_timeout_blocks (p : packet) :
    ∀ (os : List (List ConnReply)) (n t : Nat) (tail : List ConnReply),
      os.length ≤ n → (∀ a ∈ os, timeoutAttemptB p a = true) →
      (sendLoop p n t (os.flatten ++ tail)).1
          = (sendLoop p (n - os.length) (timeoutAfter t os.length) tail).1
      ∧ writesOf (sendLoop p n t (os.flatten ++ tail)).2
          = os.length + writesOf (sendLoop p (n - os.length) (timeoutAfter t os.length) tail).2 := by
  intro os
  induction os with
  | nil => intro n t tail _ _; simp [timeoutAfter]
  | cons a os ih =>
    intro n t tail hn hall
    cases n with
    | zero => simp at hn
    | succ m =>
      obtain ⟨rest, rfl, hscript⟩ := timeoutAttemptB_elim (hall a (by simp))
      have hflat :
          ((ConnReply.writeOk p.bytes.length :: ConnReply.deadlineOk :: rest) :: os).flatten
              ++ tail
            = ConnReply.writeOk p.bytes.length :: ConnReply.deadlineOk ::
                (rest ++ (os.flatten ++ tail)) := by
        simp
      have hih := ih m (nextTimeout t) tail (by simpa using hn)
        (fun x hx => hall x (by simp [hx]))
      rw [hflat, sendLoop_timeout_step p m t rest _ hscript]
      refine ⟨?_, ?_⟩
      · rw [hih.1]
        simp [timeoutAfter, Nat.succ_sub_succ]
      · simp only [writesOf_write, writesOf_arm, writesOf_append, writesOf_replicate_read]
        rw [hih.2]
        simp [timeoutAfter, Nat.succ_sub_succ]
        omega

/-- A failing write call ends the attempt loop at once with a fatal
result, the write being the only action of that attempt. -/
lemma sendLoop_write_fail (p : packet) (n t : Nat) (r : ConnReply) (o : List ConnReply)
    (hr : r = ConnReply.writeErr ∨ ∃ m, ¬ m = p.bytes.length ∧ r = ConnReply.writeOk m) :
    sendLoop p (n + 1) t (r :: o) = (SendResult.fatal, [ConnAct.write p.bytes]) := by
  rcases hr with rfl | ⟨m, hm, rfl⟩
  · rfl
  · simp only [sendLoop, if_neg hm]

/-- On any oracle the armed deadlines are a prefix (a `take`) of the arm
schedule. -/
lemma sendLoop_arms_take (p : packet) :
    ∀ (n t : Nat) (o : List ConnReply),
      ∃ k, armsOf (sendLoop p n t o).2 = (armSched n t).take k := by
  intro n
  induction n with
  | zero => intro t o; exact ⟨0, by simp [sendLoop]⟩
  | succ m ih =>
    intro t o
    cases o with
    | nil => exact ⟨0, by simp [sendLoop]⟩
    | cons r o₁ =>
      cases r with
      | writeErr => exact ⟨0, by simp [sendLoop]⟩
      | deadlineOk => exact ⟨0, by simp [sendLoop]⟩
      | deadlineErr => exact ⟨0, by simp [sendLoop]⟩
      | readTimeout => exact ⟨0, by simp [sendLoop]⟩
      | readErr => exact ⟨0, by simp [sendLoop]⟩
      | readData d sndr => exact ⟨0, by simp [sendLoop]⟩
      | writeOk n₀ =>
        by_cases hc : n₀ = p.bytes.length
        · subst hc
          cases o₁ with
          | nil => exact ⟨0, by simp [sendLoop]⟩
          | cons r₂ o₂ =>
            cases r₂ with
            | writeOk k => exact ⟨0, by simp [sendLoop]⟩
            | writeErr => exact ⟨0, by simp [sendLoop]⟩
            | deadlineErr => exact ⟨0, by simp [sendLoop]⟩
            | readTimeout => exact ⟨0, by simp [sendLoop]⟩
            | readErr => exact ⟨0, by simp [sendLoop]⟩
            | readData d sndr => exact ⟨0, by simp [sendLoop]⟩
            | deadlineOk =>
              have htr := recvLoop_trace_reads p.transId o₂
              rcases hrec : recvLoop p.transId o₂ with ⟨ro, tr, orest⟩
              rw [hrec] at htr
              cases ro with
              | timedOut =>
                obtain ⟨k, hk⟩ := ih (nextTimeout t) orest
                refine ⟨k + 1, ?_⟩
                simp only [sendLoop, if_pos rfl, hrec]
                simp [armSched, htr.1, hk]
              | fatal =>
                refine ⟨1, ?_⟩
                simp only [sendLoop, if_pos rfl, hrec]
                simp [armSched, htr.1]
              | matched sndr pkt =>
                refine ⟨1, ?_⟩
                simp only [sendLoop, if_pos rfl, hrec]
                simp [armSched, htr.1]
              | panicked =>
                refine ⟨1, ?_⟩
                simp only [sendLoop, if_pos rfl, hrec]
                simp [armSched, htr.1]
              | stuck =>
                refine ⟨1, ?_⟩
                simp only [sendLoop, if_pos rfl, hrec]
                simp [armSched, htr.1]
        · exact ⟨0, by simp [sendLoop, hc]⟩

/-- When `send` ends with the exhaustion return `(nil, nil, nil)`, all 9
deadlines were armed: the armed list is the whole schedule. -/
lemma sendLoop_noReply_arms (p : packet) :
    ∀ (n t : Nat) (o : List ConnReply),
      (sendLoop p n t o).1 = SendResult.noReply →
      armsOf (sendLoop p n t o).2 = armSched n t := by
  intro n
  induction n with
  | zero => intro t o _; simp [sendLoop, armSched]
  | succ m ih =>
    intro t o h
    cases o with
    | nil => simp [sendLoop] at h
    | cons r o₁ =>
      cases r with
      | writeErr => simp [sendLoop] at h
      | deadlineOk => simp [sendLoop] at h
      | deadlineErr => simp [sendLoop] at h
      | readTimeout => simp [sendLoop] at h
      | readErr => simp [sendLoop] at h
      | readData d sndr => simp [sendLoop] at h
      | writeOk n₀ =>
        by_cases hc : n₀ = p.bytes.length
        · subst hc
          cases o₁ with
          | nil => simp [sendLoop] at h
          | cons r₂ o₂ =>
            cases r₂ with
            | writeOk k => simp [sendLoop] at h
            | writeErr => simp [sendLoop] at h
            | deadlineErr => simp [sendLoop] at h
            | readTimeout => simp [sendLoop] at h
            | readErr => simp [sendLoop] at h
            | readData d sndr => simp [sendLoop] at h
            | deadlineOk =>
              have htr := recvLoop_trace_reads p.transId o₂
              rcases hrec : recvLoop p.transId o₂ with ⟨ro, tr, orest⟩
              rw [hrec] at htr
              cases ro with
              | timedOut =>
                simp only [sendLoop, if_pos rfl, if_true, eq_self_iff_true, hrec] at h ⊢
                simp only [armsOf_write, armsOf_arm, armsOf_append, htr.1, armSched]
                rw [ih (nextTimeout t) orest h]
                simp
              | fatal => simp only [sendLoop, if_pos rfl, hrec] at h; simp at h
              | matched sndr pkt => simp only [sendLoop, if_pos rfl, hrec] at h; simp at h
              | panicked => simp only [sendLoop, if_pos rfl, hrec] at h; simp at h
              | stuck => simp only [sendLoop, if_pos rfl, hrec] at h; simp at h
        · simp [sendLoop, hc] at h

/-! ## Claim theorems: the transaction engine (C5 - C7, C9) -/

/-- Claim C5 (confirmed): the deadlines armed by `send` always follow the
schedule 100, 200, 400, 800, 1600, 1600, 1600, 1600, 1600 ms — for any
oracle the armed deadlines are a prefix of that list, and whenever `send`
runs all 9 attempts to exhaustion (the `(nil, nil, nil)` return) the armed
deadlines are exactly that list: the timeout starts at 100 ms and is
doubled after arming each deadline, capped at 1600 ms. -/
theorem send_backoff_schedule (p : packet) (o : List ConnReply) :
    (∃ k, armsOf (send p o).2
        = [100, 200, 400, 800, 1600, 1600, 1600, 1600, 1600].take k)
    ∧ ((send p o).1 = SendResult.noReply →
        armsOf (send p o).2 = [100, 200, 400, 800, 1600, 1600, 1600, 1600, 1600]) := by
  have hsched : armSched 9 100 = [100, 200, 400, 800, 1600, 1600, 1600, 1600, 1600] := by
    decide
  constructor
  · obtain ⟨k, hk⟩ := sendLoop_arms_take p 9 100 o
    exact ⟨k, by rw [send, hk, hsched]⟩
  · intro h
    rw [send] at h ⊢
    rw [sendLoop_noReply_arms p 9 100 o h, hsched]

/-- Claim C5 witness: on an oracle of 9 timing-out attempts the armed
deadlines are exactly the schedule. -/
theorem send_backoff_schedule_witness :
    armsOf (send p0
        (List.replicate 9
          [ConnReply.writeOk 20, ConnReply.deadlineOk, ConnReply.readTimeout]).flatten).2
      = [100, 200, 400, 800, 1600, 1600, 1600, 1600, 1600] :=
  (send_backoff_schedule p0
    (List.replicate 9
      [ConnReply.writeOk 20, ConnReply.deadlineOk, ConnReply.readTimeout]).flatten).2
    (by decide)

/-- Claim C6 (confirmed): when every one of the 9 attempts consists of a
full write, a successful deadline arm and a receive phase that sees only
non-matching datagrams before timing out, `send` performs exactly 9 write
attempts and ends with the `(nil, nil, nil)` return — no response and no
error. -/
theorem send_exhaustion_nine_attempts (p : packet) (os : List (List ConnReply))
    (h9 : os.length = 9) (hall : ∀ a ∈ os, timeoutAttemptB p a = true) :
    (send p os.flatten).1 = SendResult.noReply
    ∧ writesOf (send p os.flatten).2 = 9 := by
  have h := sendLoop_timeout_blocks p os 9 100 [] (by omega) hall
  rw [List.append_nil] at h
  rw [send]
  rw [h9] at h
  refine ⟨by rw [h.1]; rfl, ?_⟩
  rw [h.2]
  rfl

/-- Claim C6 witness: 9 write-arm-timeout attempts on `p0`. -/
theorem send_exhaustion_nine_attempts_witness :
    (send p0 (List.replicate 9
        [ConnReply.writeOk 20, ConnReply.deadlineOk, ConnReply.readTimeout]).flatten).1
      = SendResult.noReply
    ∧ writesOf (send p0 (List.replicate 9
        [ConnReply.writeOk 20, ConnReply.deadlineOk, ConnReply.readTimeout]).flatten).2
      = 9 :=
  send_exhaustion_nine_attempts p0
    (List.replicate 9 [ConnReply.writeOk 20, ConnReply.deadlineOk, ConnReply.readTimeout])
    (by decide) (by decide)

/-- Claim C7 (confirmed): with a request `p`, the receive phase of the
first attempt reads past every datagram that parses to a transaction id
different from `p`'s without terminating and without re-arming the
deadline (the trace holds the single arm of 100 ms), and the first
datagram whose parsed transaction id equals `p`'s makes `send` return
immediately — on this very first attempt — with the sender address and
the parsed packet, leaving the rest of the oracle unconsumed. -/
theorem send_transaction_id_matching (p : packet) (ds : List ConnReply) (d : List Nat)
    (sndr : Nat) (pkt : packet) (tail : List ConnReply)
    (hds : ∀ r ∈ ds, nonMatchingB p.transId r = true)
    (hp : newPacketFromBytes (d.take 1024) = ParseResult.ok pkt)
    (hm : p.transId = pkt.transId) :
    send p (ConnReply.writeOk p.bytes.length :: ConnReply.deadlineOk ::
        (ds ++ ConnReply.readData d sndr :: tail))
      = (SendResult.reply sndr pkt,
         ConnAct.write p.bytes :: ConnAct.arm 100 ::
           List.replicate (ds.length + 1) ConnAct.read) := by
  have hr := recvLoop_match_after p.transId ds d sndr pkt tail hds hp hm
  rw [send, show (9 : Nat) = 8 + 1 from rfl]
  simp [sendLoop, hr]

/-- A 24-byte datagram whose transaction id starts with a 1: parses fine,
transaction id different from `zeros16`. -/
def dNon : List Nat := [0, 0, 0, 0, 1] ++ List.replicate 15 0 ++ [0, 0, 0, 0]

/-- A 24-byte all-zero datagram: parses to `pktMatch` below, transaction
id equal to `zeros16`. -/
def dMatch : List Nat := List.replicate 24 0

/-- The packet `dMatch` parses to. -/
def pktMatch : packet :=
  { types := 0, length := 4, transId := zeros16,
    attributes := [{ types := 0, length := 0, value := [] }] }

/-- Claim C7 witness: one non-matching datagram is skipped, then the
matching one ends the exchange on the first attempt. -/
theorem send_transaction_id_matching_witness :
    send p0 (ConnReply.writeOk p0.bytes.length :: ConnReply.deadlineOk ::
        ([ConnReply.readData dNon 3] ++ ConnReply.readData dMatch 5 :: [ConnReply.readTimeout]))
      = (SendResult.reply 5 pktMatch,
         ConnAct.write p0.bytes :: ConnAct.arm 100 ::
           List.replicate ([ConnReply.readData dNon 3].length + 1) ConnAct.read) :=
  send_transaction_id_matching p0 [ConnReply.readData dNon 3] dMatch 5 pktMatch
    [ConnReply.readTimeout] (by decide) (by decide) (by decide)

/-- Claim C9 (confirmed): after any number (at most 8) of timing-out
attempts, an attempt whose write returns an error, or returns a byte count
different from the length of the serialized packet, ends `send`
immediately with the fatal `(nil, nil, err)` return: the failing write is
the last write performed, with no further retransmission. -/
theorem send_write_failure_fatal (p : packet) (os : List (List ConnReply)) (r : ConnReply)
    (tail : List ConnReply) (hn : os.length ≤ 8)
    (hall : ∀ a ∈ os, timeoutAttemptB p a = true)
    (hr : r = ConnReply.writeErr
      ∨ ∃ m, ¬ m = p.bytes.length ∧ r = ConnReply.writeOk m) :
    (send p (os.flatten ++ r :: tail)).1 = SendResult.fatal
    ∧ writesOf (send p (os.flatten ++ r :: tail)).2 = os.length + 1 := by
  have h := sendLoop_timeout_blocks p os 9 100 (r :: tail) (by omega) hall
  obtain ⟨k, hk⟩ : ∃ k, 9 - os.length = k + 1 := ⟨8 - os.length, by omega⟩
  rw [send, h.1, h.2, hk, sendLoop_write_fail p k _ r tail hr]
  exact ⟨rfl, rfl⟩

/-- Claim C9 witness: one timing-out attempt, then a short write (19 of
20 bytes) — fatal after the second write. -/
theorem send_write_failure_fatal_witness :
    (send p0 (([[ConnReply.writeOk 20, ConnReply.deadlineOk, ConnReply.readTimeout]] :
          List (List ConnReply)).flatten ++ ConnReply.writeOk 19 :: [])).1
      = SendResult.fatal
    ∧ writesOf (send p0 (([[ConnReply.writeOk 20, ConnReply.deadlineOk, ConnReply.readTimeout]] :
          List (List ConnReply)).flatten ++ ConnReply.writeOk 19 :: [])).2
      = [[ConnReply.writeOk 20, ConnReply.deadlineOk, ConnReply.readTimeout]].length + 1 :=
  send_write_failure_fatal p0 [[ConnReply.writeOk 20, ConnReply.deadlineOk, ConnReply.readTimeout]]
    (ConnReply.writeOk 19) [] (by decide) (by decide)
    (Or.inr ⟨19, by decide, rfl⟩)

/-! ## Claim C10: the declared length field is ignored by the walk -/

lemma getD_set_ne (x d : Nat) (l : List Nat) (i j : Nat) (hij : ¬ i = j) :
    (l.set i x).getD j d = l.getD j d := by
  induction l generalizing i j with
  | nil => simp
  | cons a l ih =>
    cases i with
    | zero =>
      cases j with
      | zero => exact absurd rfl hij
      | succ j => simp [List.set]
    | succ i =>
      cases j with
      | zero => simp [List.set]
      | succ j =>
        have := ih i j (by omega)
        simpa [List.set] using this

lemma drop_set_ge (x : Nat) (l : List Nat) (i n : Nat) (h : i < n) :
    (l.set i x).drop n = l.drop n := by
  induction l generalizing i n with
  | nil => simp
  | cons a l ih =>
    cases i with
    | zero =>
      cases n with
      | zero => omega
      | succ n => simp [List.set]
    | succ i =>
      cases n with
      | zero => omega
      | succ n => simp [List.set, ih i n (by omega)]

lemma getD_lt_256 (l : List Nat) (i : Nat) (h : ∀ v ∈ l, v < 256) : l.getD i 0 < 256 := by
  induction l generalizing i with
  | nil => simp
  | cons a l ih =>
    cases i with
    | zero => exact h a (by simp)
    | succ i => exact ih i (fun v hv => h v (by simp [hv]))

/-- Replacing the two header length bytes does not change reads at offsets
4 and beyond. -/
lemma getU16_set_hdr (b : List Nat) (x y j : Nat) (hj : 4 ≤ j) :
    getU16 ((b.set 2 x).set 3 y) j = getU16 b j := by
  unfold getU16
  rw [getD_set_ne y 0 _ 3 j (by omega), getD_set_ne x 0 _ 2 j (by omega),
    getD_set_ne y 0 _ 3 (j + 1) (by omega), getD_set_ne x 0 _ 2 (j + 1) (by omega)]

/-- Replacing the two header length bytes does not change the message
type read at offset 0. -/
lemma getU16_set_hdr0 (b : List Nat) (x y : Nat) :
    getU16 ((b.set 2 x).set 3 y) 0 = getU16 b 0 := by
  unfold getU16
  rw [getD_set_ne y 0 _ 3 0 (by omega), getD_set_ne x 0 _ 2 0 (by omega),
    getD_set_ne y 0 _ 3 (0 + 1) (by omega), getD_set_ne x 0 _ 2 (0 + 1) (by omega)]

/-- A packet with its `uint16` length field forgotten. -/
def stripLen (p : packet) : packet := { p with length := 0 }

/-- A parse outcome with the decoded packet's length field forgotten. -/
def forgetLen : ParseResult → ParseResult
  | ParseResult.ok p => ParseResult.ok (stripLen p)
  | r => r

lemma stripLen_addAttribute {p q : packet} (h : stripLen p = stripLen q) (a : Attrib) :
    stripLen (p.addAttribute a) = stripLen (q.addAttribute a) := by
  cases p
  cases q
  simp only [stripLen, packet.addAttribute, packet.mk.injEq] at h ⊢
  obtain ⟨h1, -, h3, h4⟩ := h
  simp [h1, h3, h4]

/-- For buffers of at most 65531 bytes, one iteration of the attribute
walk at a cursor of at least 4 reads nothing that the two header length
bytes could influence. -/
lemma parseShape_set_hdr (b : List Nat) (x y pos : Nat)
    (hb : b.length ≤ 65531) (hpos : 4 ≤ pos) :
    parseShape ((b.set 2 x).set 3 y) pos = parseShape b pos := by
  have hlen : ((b.set 2 x).set 3 y).length = b.length := by simp
  by_cases hc : pos < b.length % 65536
  · have hposlt : pos < b.length := lt_of_lt_of_le hc (Nat.mod_le _ _)
    have e2 : (pos + 2) % 65536 = pos + 2 := Nat.mod_eq_of_lt (by omega)
    have e4 : (pos + 4) % 65536 = pos + 4 := Nat.mod_eq_of_lt (by omega)
    have gdrop : ((b.set 2 x).set 3 y).drop (pos + 4) = b.drop (pos + 4) := by
      rw [drop_set_ge y _ 3 (pos + 4) (by omega), drop_set_ge x _ 2 (pos + 4) (by omega)]
    simp only [parseShape, hlen, e2, e4]
    rw [getU16_set_hdr b x y pos hpos, getU16_set_hdr b x y (pos + 2) (by omega), gdrop]
  · simp only [parseShape, hlen]
    rw [if_neg hc, if_neg hc]

/-- In a byte buffer of at most 65531 bytes, a walk iteration that
produces a next cursor keeps the cursor at 4 or beyond (in fact it
advances by at least 4, with no 16-bit wrap). -/
lemma parseShape_next_ge (b : List Nat) (pos pos' : Nat) (a : Attrib)
    (hb : b.length ≤ 65531) (hbytes : ∀ v ∈ b, v < 256)
    (h : parseShape b pos = Shape.next pos' a) : 4 ≤ pos' := by
  have hlen16 : b.length % 65536 = b.length := Nat.mod_eq_of_lt (by omega)
  rw [parseShape] at h
  by_cases hc : pos < b.length % 65536
  · rw [if_pos hc] at h
    have hposlt : pos < b.length := by omega
    have e2 : (pos + 2) % 65536 = pos + 2 := Nat.mod_eq_of_lt (by omega)
    have e4 : (pos + 4) % 65536 = pos + 4 := Nat.mod_eq_of_lt (by omega)
    rw [e2, e4, hlen16] at h
    have hlt : getU16 b (pos + 2) < 65536 := by
      have hb1 := getD_lt_256 b (pos + 2) hbytes
      have hb2 := getD_lt_256 b (pos + 2 + 1) hbytes
      unfold getU16
      omega
    set len := getU16 b (pos + 2) with hlendef
    split_ifs at h with h1 h2 h3 h4
    -- the next branch: no wrap anywhere, cursor advances by align+4
    rw [Shape.next.injEq] at h
    obtain ⟨hnext, -⟩ := h
    have hle : pos + 4 + len ≤ b.length := by omega
    have ea : (len + 3) % 65536 = len + 3 := Nat.mod_eq_of_lt (by omega)
    have haligned : align16 len ≤ len + 3 := by
      rw [align16, ea]
      exact Nat.div_mul_le_self _ _
    have emod : (pos + (align16 len + 4)) % 65536 = pos + (align16 len + 4) :=
      Nat.mod_eq_of_lt (by omega)
    rw [emod] at hnext
    omega
  · rw [if_neg hc] at h
    exact absurd h (by simp)

/-- The whole attribute walk is unaffected by the two header length bytes
(for byte buffers of at most 65531 bytes), apart from the length field of
the accumulated packet. -/
lemma parseAttrs_set_hdr (b : List Nat) (x y : Nat)
    (hb : b.length ≤ 65531) (hbytes : ∀ v ∈ b, v < 256) :
    ∀ (fuel pos : Nat) (acc₁ acc₂ : packet), 4 ≤ pos → stripLen acc₁ = stripLen acc₂ →
      forgetLen (parseAttrs ((b.set 2 x).set 3 y) fuel pos acc₁)
        = forgetLen (parseAttrs b fuel pos acc₂) := by
  intro fuel
  induction fuel with
  | zero => intro pos a₁ a₂ _ _; rfl
  | succ fuel ih =>
    intro pos a₁ a₂ hpos hacc
    simp only [parseAttrs, parseShape_set_hdr b x y pos hb hpos]
    cases hs : parseShape b pos with
    | done => simp [forgetLen, hacc]
    | fail r => rfl
    | next pos' a =>
      simp only []
      exact ih pos' _ _ (parseShape_next_ge b pos pos' a hb hbytes hs)
        (stripLen_addAttribute hacc a)

/-- Claim C10 (amended): `newPacketFromBytes` ignores the header's
declared length field when walking attributes — for every byte buffer of
at most 65531 bytes, replacing the two length bytes (offsets 2 and 3)
changes nothing in the parse outcome but the decoded packet's length
field; the walk bound is the buffer's length (truncated to 16 bits, which
is the length itself for such buffers), not the declared length, so
trailing bytes beyond the declared attribute-section length are still
decoded — on `b3`, whose declared length 4 covers one well-formed
attribute, the 4 trailing bytes are decoded anyway and produce a framing
error.  (For buffers of 65532 bytes or more the `uint16` cursor and
length truncation can make the walk read the header bytes or stop before
the end of the buffer, as the counterexample shows.) -/
theorem parse_ignores_declared_length (b : List Nat) (x y : Nat)
    (hb : b.length ≤ 65531) (hbytes : ∀ v ∈ b, v < 256) :
    forgetLen (newPacketFromBytes ((b.set 2 x).set 3 y))
      = forgetLen (newPacketFromBytes b)
    ∧ newPacketFromBytes b3 = ParseResult.errFormat := by
  refine ⟨?_, by decide⟩
  have hlen : ((b.set 2 x).set 3 y).length = b.length := by simp
  rw [newPacketFromBytes, newPacketFromBytes, hlen]
  by_cases hshort : b.length < 24
  · rw [if_pos hshort, if_pos hshort]
  · rw [if_neg hshort, if_neg hshort]
    have gdrop : ((b.set 2 x).set 3 y).drop 4 = b.drop 4 := by
      rw [drop_set_ge y _ 3 4 (by omega), drop_set_ge x _ 2 4 (by omega)]
    rw [getU16_set_hdr0 b x y, gdrop]
    refine parseAttrs_set_hdr b x y hb hbytes 65537 20 _ _ (by omega) ?_
    simp [stripLen]

/-- Claim C10 witness: zeroed 24-byte buffer, length bytes replaced by
9, 9. -/
theorem parse_ignores_declared_length_witness :
    forgetLen (newPacketFromBytes (((List.replicate 24 0).set 2 9).set 3 9))
      = forgetLen (newPacketFromBytes (List.replicate 24 0))
    ∧ newPacketFromBytes b3 = ParseResult.errFormat :=
  parse_ignores_declared_length (List.replicate 24 0) 9 9 (by decide) (by decide)

lemma getD_replicate_zero : ∀ (n i : Nat), (List.replicate n (0 : Nat)).getD i 0 = 0 := by
  intro n
  induction n with
  | zero => intro i; simp
  | succ n ih =>
    intro i
    cases i with
    | zero => simp [List.replicate_succ]
    | succ i =>
      have := ih i
      simp only [List.replicate_succ, List.getD_cons_succ]
      exact this

lemma getU16_replicate_zero (n i : Nat) : getU16 (List.replicate n 0) i = 0 := by
  simp [getU16, getD_replicate_zero]

lemma parseAttrs_succ_next {b : List Nat} {pos pos' : Nat} {a : Attrib} (fuel : Nat)
    (h : parseShape b pos = Shape.next pos' a) (acc : packet) :
    parseAttrs b (fuel + 1) pos acc = parseAttrs b fuel pos' (acc.addAttribute a) := by
  simp only [parseAttrs, h]

lemma parseAttrs_succ_done {b : List Nat} {pos : Nat} (fuel : Nat)
    (h : parseShape b pos = Shape.done) (acc : packet) :
    parseAttrs b (fuel + 1) pos acc = ParseResult.ok acc := by
  simp only [parseAttrs, h]

/-- Claim C10 counterexample: a buffer of 65560 zero bytes parses exactly
as its 24-byte prefix does — to a packet with a single empty attribute —
because the walk bound `uint16(len(packetBytes))` is 65560 mod 2^16 = 24;
the claim, which says the walk runs to the end of the supplied buffer for
every input, would instead decode attributes from the remaining 65536
bytes. -/
theorem parse_truncated_walk_bound_cex :
    newPacketFromBytes (List.replicate 65560 0)
        = newPacketFromBytes ((List.replicate 65560 (0 : Nat)).take 24)
    ∧ newPacketFromBytes (List.replicate 65560 0)
        = ParseResult.ok
          { types := 0, length := 4, transId := List.replicate 16 0,
            attributes := [{ types := 0, length := 0, value := [] }] }
    ∧ (List.replicate 65560 (0 : Nat)).length = 65560 := by
  have htake : (List.replicate 65560 (0 : Nat)).take 24 = List.replicate 24 0 := by
    rw [List.take_replicate]
    norm_num
  have hshape1 : parseShape (List.replicate 65560 0) 20
      = Shape.next 24 { types := 0, length := 0, value := [] } := by
    rw [parseShape]
    rw [List.length_replicate]
    rw [getU16_replicate_zero, getU16_replicate_zero]
    norm_num [newAttribute, align16]
  have hshape2 : parseShape (List.replicate 65560 0) 24 = Shape.done := by
    rw [parseShape, List.length_replicate]
    norm_num
  have hmain : newPacketFromBytes (List.replicate 65560 0)
      = ParseResult.ok
          { types := 0, length := 4, transId := List.replicate 16 0,
            attributes := [{ types := 0, length := 0, value := [] }] } := by
    rw [newPacketFromBytes, List.length_replicate]
    rw [if_neg (by norm_num)]
    rw [getU16_replicate_zero, getU16_replicate_zero]
    have hdrop : (List.replicate 65560 (0 : Nat)).drop 4 = List.replicate 65556 0 := by
      rw [List.drop_replicate]
    have htake16 : (List.replicate 65556 (0 : Nat)).take 16 = List.replicate 16 0 := by
      rw [List.take_replicate]
      norm_num
    rw [hdrop, htake16]
    rw [show (65537 : Nat) = 65536 + 1 from rfl, parseAttrs_succ_next 65536 hshape1,
      show (65536 : Nat) = 65535 + 1 from rfl, parseAttrs_succ_done 65535 hshape2]
    simp [packet.addAttribute, align16]
  refine ⟨?_, hmain, by rw [List.length_replicate]⟩
  rw [hmain, htake]
  decide

